import Mathlib

set_option linter.unreachableTactic false

set_option linter.unusedTactic false

/-!
# PlantGuardian server — verification of the sensor-line parser and state model

A shallow embedding of the PlantGuardian Express server (`server_integrated`
plus `mongodb.js`, and the Next.js route `app/api/servo/route.ts`).
Strings are modelled as `List Char`; the JavaScript primitives used by the
server (`String.prototype.split` with a one-character separator,
`String.prototype.trim`, `String.prototype.includes`, `parseInt`,
`parseFloat`) are modelled as executable functions below.  The in-memory
`sensorData` singleton is the structure `ServerState`; each HTTP handler is a
pure function from the pre-state (plus the request) to the post-state and the
response.  Fire-and-forget durable writes (file append, MongoDB save) are
modelled by a `SinkOutcome` input saying which of them fail, and a list of
error-log events emitted by the handler.
-/

/-- Strings as lists of characters (the JS string values the server manipulates). -/
abbrev Str := List Char

/-- Models `s.includes(c)` for a one-character needle. -/
def hasChar : Str → Char → Bool
  | [], _ => false
  | c :: rest, a => if c = a then true else hasChar rest a

/-- Models `s.split(sep)` for a one-character separator: every occurrence of
`sep` separates pieces, empty pieces are kept, and the empty string splits to
`[""]`, exactly as in JavaScript. -/
def splitChar (sep : Char) : Str → List Str
  | [] => [[]]
  | c :: rest =>
    match splitChar sep rest with
    | [] => [[]]
    | p :: ps => if c = sep then [] :: p :: ps else (c :: p) :: ps

/-- Drops leading whitespace characters. -/
def trimLeft : Str → Str
  | [] => []
  | c :: rest => if c.isWhitespace then trimLeft rest else c :: rest

/-- Models `s.trim()`: whitespace removed from both ends. -/
def jsTrim (s : Str) : Str := trimLeft (trimLeft s.reverse).reverse

/-- A JavaScript number as the parse functions produce it: `NaN`, a signed
infinity, or a finite value (modelled as a rational, which is exact for every
numeral the server ever parses). -/
inductive JsNum where
  | nan
  | inf (pos : Bool)
  | val (q : ℚ)
deriving DecidableEq, Repr

/-- Decimal digit value of a character, if it is a digit. -/
def decDigit (c : Char) : Nat := c.toNat - 48

/-- Longest digit prefix of a string, returned with the rest of the string. -/
def takeDigits : Str → (List Nat × Str)
  | [] => ([], [])
  | c :: rest =>
    if c.isDigit then
      let (ds, r) := takeDigits rest
      (decDigit c :: ds, r)
    else ([], c :: rest)

/-- Hexadecimal digit value of a character, if any. -/
def hexDigit (c : Char) : Option Nat :=
  if c.isDigit then some (c.toNat - 48)
  else if 'a' ≤ c ∧ c ≤ 'f' then some (c.toNat - 87)
  else if 'A' ≤ c ∧ c ≤ 'F' then some (c.toNat - 55)
  else none

/-- Longest hexadecimal-digit prefix of a string. -/
def takeHexDigits : Str → List Nat
  | [] => []
  | c :: rest =>
    match hexDigit c with
    | some d => d :: takeHexDigits rest
    | none => []

/-- Value of a digit list in the given base, most significant digit first. -/
def digitsVal (base : Nat) (ds : List Nat) : Nat :=
  ds.foldl (fun a d => a * base + d) 0

/-- Models JavaScript `parseInt(s)` (no radix argument): skip leading
whitespace, optional sign, then either a `0x`/`0X` hexadecimal literal or the
longest decimal-digit prefix; `none` is `NaN` (no digits found). -/
def jsParseIntI (s : Str) : Option Int :=
  let t := trimLeft s
  let sgn : Int := match t with | '-' :: _ => -1 | _ => 1
  let t1 : Str := match t with | '-' :: r => r | '+' :: r => r | _ => t
  match t1 with
  | '0' :: x :: r2 =>
    if x = 'x' ∨ x = 'X' then
      match takeHexDigits r2 with
      | [] => none
      | ds => some (sgn * digitsVal 16 ds)
    else
      match takeDigits t1 with
      | ([], _) => none
      | (ds, _) => some (sgn * digitsVal 10 ds)
  | _ =>
    match takeDigits t1 with
    | ([], _) => none
    | (ds, _) => some (sgn * digitsVal 10 ds)

/-- `parseInt` packaged as a `JsNum` (`NaN` when no digits parse). -/
def jsParseInt (s : Str) : JsNum :=
  match jsParseIntI s with
  | some n => .val (n : ℚ)
  | none => .nan

/-- Models JavaScript `parseFloat(s)`: skip leading whitespace, optional sign,
then `Infinity` or the longest decimal literal `digits [. digits] [e|E [sign]
digits]`; `NaN` when no digits are found. -/
def jsParseFloat (s : Str) : JsNum :=
  let t := trimLeft s
  let sgnPos : Bool := match t with | '-' :: _ => false | _ => true
  let t1 : Str := match t with | '-' :: r => r | '+' :: r => r | _ => t
  if t1.take 8 = "Infinity".data then .inf sgnPos
  else
    let (ids, r1) := takeDigits t1
    let (fds, r2) : List Nat × Str :=
      match r1 with
      | '.' :: rr => takeDigits rr
      | _ => ([], r1)
    if ids = [] ∧ fds = [] then .nan
    else
      let mant : ℚ := (digitsVal 10 ids : ℚ) + (digitsVal 10 fds : ℚ) / (10 : ℚ) ^ fds.length
      let expv : Int :=
        match r2 with
        | e :: rr =>
          if e = 'e' ∨ e = 'E' then
            let esgn : Int := match rr with | '-' :: _ => -1 | _ => 1
            let rr2 : Str := match rr with | '-' :: q => q | '+' :: q => q | _ => rr
            match takeDigits rr2 with
            | ([], _) => 0
            | (eds, _) => esgn * digitsVal 10 eds
          else 0
        | [] => 0
      let mag : ℚ := if 0 ≤ expv then mant * (10 : ℚ) ^ expv.toNat else mant / (10 : ℚ) ^ (-expv).toNat
      .val (if sgnPos then mag else -mag)

/-- A JSON-decoded JavaScript value as it can appear in a request body field
(`undef` models a missing property, whose value reads as `undefined`). -/
inductive JsVal where
  | undef
  | jnull
  | num (q : ℚ)
  | str (s : Str)
  | boolean (b : Bool)
deriving DecidableEq, Repr

/-- The nine optional sensor fields of a reading. -/
structure SensorFields where
  moisture : Option JsNum
  moistureStatus : Option Str
  light : Option JsNum
  lightStatus : Option Str
  water : Option JsNum
  waterStatus : Option Str
  temperature : Option JsNum
  humidity : Option JsNum
  servo : Option JsNum
deriving DecidableEq, Repr

/-- The in-memory `sensorData` singleton of the server: the current Reading
(timestamp, the nine optional sensor fields, the raw string) plus the servo
command mailbox `requestedServoPosition` (`JsVal.undef` when no command is
pending, matching the `!== undefined` check in the code). -/
structure ServerState where
  timestamp : Str
  moisture : Option JsNum
  moistureStatus : Option Str
  light : Option JsNum
  lightStatus : Option Str
  water : Option JsNum
  waterStatus : Option Str
  temperature : Option JsNum
  humidity : Option JsNum
  servo : Option JsNum
  raw : Str
  requestedServoPosition : JsVal
deriving DecidableEq, Repr

/-- The nine sensor fields of a state. -/
def ServerState.sensors (s : ServerState) : SensorFields :=
  { moisture := s.moisture, moistureStatus := s.moistureStatus,
    light := s.light, lightStatus := s.lightStatus,
    water := s.water, waterStatus := s.waterStatus,
    temperature := s.temperature, humidity := s.humidity, servo := s.servo }

/-- The initial `sensorData` object (all sensor fields `null`, empty raw
string, no pending servo command); the initial timestamp is a parameter since
the code takes it from the clock at startup. -/
def initialState (t0 : Str) : ServerState :=
  { timestamp := t0, moisture := none, moistureStatus := none,
    light := none, lightStatus := none, water := none, waterStatus := none,
    temperature := none, humidity := none, servo := none, raw := [],
    requestedServoPosition := .undef }

/-- Key strings recognized by the parse loop. -/
def kMoisture : Str := "Moisture".data

def kLight : Str := "Light".data

def kWater : Str := "Water".data

def kTemp : Str := "Temp".data

def kHumid : Str := "Humid".data

def kServo : Str := "Servo".data

/-- The recognized keys, in source order. -/
def recognizedKeys : List Str := [kMoisture, kLight, kWater, kTemp, kHumid, kServo]

/-- The `key`/`value` dispatch of the parse loop body: `const [key, value] =
part.split(":")` followed by the `if`/`else if` chain over the six recognized
keys.  `next` is `parts[i+1]` (the untrimmed next comma-piece) when it exists;
for `Moisture`/`Light`/`Water` the status is attached exactly when `next`
exists and does not include `":"`. -/
def applyKV (key value : Str) (next : Option Str) (s : ServerState) : ServerState :=
  if key = kMoisture then
    let s1 := { s with moisture := some (jsParseInt value) }
    match next with
    | some nx => if hasChar nx ':' then s1 else { s1 with moistureStatus := some (jsTrim nx) }
    | none => s1
  else if key = kLight then
    let s1 := { s with light := some (jsParseInt value) }
    match next with
    | some nx => if hasChar nx ':' then s1 else { s1 with lightStatus := some (jsTrim nx) }
    | none => s1
  else if key = kWater then
    let s1 := { s with water := some (jsParseInt value) }
    match next with
    | some nx => if hasChar nx ':' then s1 else { s1 with waterStatus := some (jsTrim nx) }
    | none => s1
  else if key = kTemp then { s with temperature := some (jsParseFloat value) }
  else if key = kHumid then { s with humidity := some (jsParseFloat value) }
  else if key = kServo then { s with servo := some (jsParseInt value) }
  else s

/-- One iteration of the parse loop on the comma-piece `rawPart`: trim it,
and if the trimmed part includes `":"`, split it on `":"` and dispatch on the
key (pieces after the second are dropped, as array destructuring does). -/
def step (rawPart : Str) (next : Option Str) (s : ServerState) : ServerState :=
  let part := jsTrim rawPart
  if hasChar part ':' then
    match splitChar ':' part with
    | [] => s
    | key :: restPieces => applyKV key ((restPieces.head?).getD []) next s
  else s

/-- The parse loop `for (let i = 0; i < parts.length; i++)`: each piece is
processed with `parts[i+1]` (the head of the remaining pieces) as lookahead. -/
def loop : List Str → ServerState → ServerState
  | [], s => s
  | p :: rest, s => loop rest (step p rest.head? s)

/-- A blank state used to express the parser as a pure function. -/
def blankState : ServerState := initialState []

/-- The Line Parser as a pure function: the sensor fields obtained by running
the parse loop over the comma-split pieces of `raw`, starting from all-absent
fields (exactly what the handler does right after resetting them). -/
def pureParse (raw : Str) : SensorFields :=
  (loop (splitChar ',' raw) blankState).sensors

/-- Which of the fire-and-forget durable writes succeed during a request. -/
structure SinkOutcome where
  fileOk : Bool
  dbOk : Bool
deriving DecidableEq, Repr

/-- Error-log records the handler emits for failed durable writes
(`saveErrorLog` calls). -/
inductive LogEvent where
  | fileWriteErrorLogged
  | dbSaveErrorLogged
deriving DecidableEq, Repr

/-- Response of `POST /data` (for a string body the handler always reaches the
success branch; the server-error branch exists for completeness). -/
inductive DataResp where
  | success
  | serverError (msg : Str)
deriving DecidableEq, Repr

/-- Result of the `POST /data` handler. -/
structure PostDataResult where
  state : ServerState
  resp : DataResp
  errors : List LogEvent
deriving DecidableEq, Repr

/-- The `POST /data` handler on a string body `{data: rawData}`: store the raw
string and re-stamp the timestamp, reset the nine sensor fields to `null`,
run the parse loop over the comma-split pieces, fire the durable writes
(file append and MongoDB save — their failures only produce error logs), and
respond success. -/
def postData (s : ServerState) (rawData : Str) (now : Str) (sink : SinkOutcome) : PostDataResult :=
  let s1 := { s with raw := rawData, timestamp := now }
  let s2 := { s1 with moisture := none, moistureStatus := none,
                      light := none, lightStatus := none,
                      water := none, waterStatus := none,
                      temperature := none, humidity := none, servo := none }
  let s3 := loop (splitChar ',' rawData) s2
  { state := s3,
    resp := .success,
    errors := (if sink.fileOk then [] else [.fileWriteErrorLogged]) ++
              (if sink.dbOk then [] else [.dbSaveErrorLogged]) }

/-- Response of the Express `POST /servo` handler. -/
inductive ServoResp where
  | success (position : JsVal)
  | serverError (msg : Str)
deriving DecidableEq, Repr

/-- HTTP status of an Express `POST /servo` response. -/
def servoRespStatus : ServoResp → Nat
  | .success _ => 200
  | .serverError _ => 500

/-- Result of the Express `POST /servo` handler. -/
structure ServoPostResult where
  state : ServerState
  resp : ServoResp
  errors : List LogEvent
deriving DecidableEq, Repr

/-- The Express `POST /servo` handler: it stores `req.body.position` into
`requestedServoPosition` unconditionally (no validation of type or range),
fires the durable servo-log writes, and responds success with the stored
position.  A failing file append produces an error log; a failing MongoDB
servo-log save is only written to the console. -/
def expressPostServo (s : ServerState) (position : JsVal) (sink : SinkOutcome) : ServoPostResult :=
  { state := { s with requestedServoPosition := position },
    resp := .success position,
    errors := if sink.fileOk then [] else [.fileWriteErrorLogged] }

/-- Response of `GET /servo-check`. -/
inductive ServoCheckResp where
  | success (position : JsVal)
  | noRequest
deriving DecidableEq, Repr

/-- The `GET /servo-check` handler: if `requestedServoPosition !== undefined`,
return it with a success response and clear the slot; otherwise report
`no_request`. -/
def servoCheck (s : ServerState) : ServoCheckResp × ServerState :=
  if s.requestedServoPosition ≠ .undef then
    (.success s.requestedServoPosition, { s with requestedServoPosition := .undef })
  else (.noRequest, s)

/-- Response of the Next.js `POST /api/servo` route (`route.ts`). -/
inductive RouteResp where
  | ok (position : ℚ)
  | badRequest
  | serverError
deriving DecidableEq, Repr

/-- HTTP status of a `route.ts` response. -/
def routeStatus : RouteResp → Nat
  | .ok _ => 200
  | .badRequest => 400
  | .serverError => 500

/-- The Next.js `POST /api/servo` route: reject with a `400` error body when
`typeof position !== "number" || position < 0 || position > 180`, otherwise
accept.  This route touches no server state (it is a mock: it only logs). -/
def routePOST : JsVal → RouteResp
  | .num q => if q < 0 ∨ q > 180 then .badRequest else .ok q
  | _ => .badRequest

/-- The JSON keys `res.json(sensorData)` serializes for `GET /data`:
`JSON.stringify` keeps `null`-valued sensor fields but omits properties whose
value is `undefined`, so the `requestedServoPosition` key appears exactly when
a command is pending. -/
def serializedKeys (s : ServerState) : List String :=
  ["timestamp", "moisture", "moistureStatus", "light", "lightStatus",
   "water", "waterStatus", "temperature", "humidity", "servo", "raw"] ++
  (if s.requestedServoPosition = .undef then [] else ["requestedServoPosition"])

/-! ## Token-level specification functions

These follow the specification's wording: a token is a key token when, after
trimming, it contains a `":"` separator; its key is the part before the first
`":"` and its value the part right after; a status is attached to a
`Moisture`/`Light`/`Water` key token exactly when the next token in the
comma-split sequence exists and does not itself contain `":"`, and the
attached status is that next token trimmed.  On repeated keys the last
occurrence wins (and an occurrence that attaches no status does not erase an
earlier attachment, since the parser only ever overwrites). -/

/-- The key of a token, when it is a key token. -/
def tokKey? (p : Str) : Option Str :=
  let t := jsTrim p
  if hasChar t ':' then (splitChar ':' t).head? else none

/-- The value carried by a key token (the piece after the first `":"`). -/
def tokVal (p : Str) : Str := (((splitChar ':' (jsTrim p)).drop 1).head?).getD []

/-- `p` is a key token for key `k`. -/
def isKeyTok (k p : Str) : Prop := tokKey? p = some k

instance instDecidableIsKeyTok (k p : Str) : Decidable (isKeyTok k p) := by
  unfold isKeyTok; infer_instance

/-- The value contribution of one token for key `k`. -/
def valContrib (k p : Str) : Option Str :=
  if isKeyTok k p then some (tokVal p) else none

/-- The value of the last key token for `k` in a token sequence (later tokens
win, so the tail is consulted first). -/
def lastVal (k : Str) : List Str → Option Str
  | [] => none
  | p :: rest =>
    match lastVal k rest with
    | some v => some v
    | none => valContrib k p

/-- The status contribution of one token for key `k`, given the next token in
sequence: attached exactly when `p` is a key token for `k` and the next token
exists and does not contain `":"`; the status is that next token trimmed. -/
def statusContrib (k p : Str) (next : Option Str) : Option Str :=
  if isKeyTok k p then
    match next with
    | some nx => if hasChar nx ':' then none else some (jsTrim nx)
    | none => none
  else none

/-- The last status attached for key `k` in a token sequence, where the token
following the last element of the sequence is `after` (used to reason about
concatenations; the whole-line case takes `after = none`). -/
def lastStatusB (k : Str) : List Str → Option Str → Option Str
  | [], _ => none
  | p :: rest, after =>
    match lastStatusB k rest after with
    | some v => some v
    | none => statusContrib k p (match rest with | [] => after | t :: _ => some t)

/-- The last status attached for key `k` over a whole token sequence. -/
def lastStatus (k : Str) (parts : List Str) : Option Str := lastStatusB k parts none

/-- The six recognized keys are pairwise distinct. -/
theorem keyNeML : kMoisture ≠ kLight := by decide

theorem keyNeMW : kMoisture ≠ kWater := by decide

theorem keyNeMT : kMoisture ≠ kTemp := by decide

theorem keyNeMH : kMoisture ≠ kHumid := by decide

theorem keyNeMS : kMoisture ≠ kServo := by decide

theorem keyNeLW : kLight ≠ kWater := by decide

theorem keyNeLT : kLight ≠ kTemp := by decide

theorem keyNeLH : kLight ≠ kHumid := by decide

theorem keyNeLS : kLight ≠ kServo := by decide

theorem keyNeWT : kWater ≠ kTemp := by decide

theorem keyNeWH : kWater ≠ kHumid := by decide

theorem keyNeWS : kWater ≠ kServo := by decide

theorem keyNeTH : kTemp ≠ kHumid := by decide

theorem keyNeTS : kTemp ≠ kServo := by decide

theorem keyNeHS : kHumid ≠ kServo := by decide

/-! ## Projection lemmas for one parse-loop step -/

theorem applyKV_moisture (key value : Str) (next : Option Str) (s : ServerState) :
    (applyKV key value next s).moisture =
      if key = kMoisture then some (jsParseInt value) else s.moisture := by
  cases next <;> simp only [applyKV] <;> split_ifs <;> first | rfl | simp_all [keyNeML, keyNeMW, keyNeMT, keyNeMH, keyNeMS, keyNeLW, keyNeLT, keyNeLH, keyNeLS, keyNeWT, keyNeWH, keyNeWS, keyNeTH, keyNeTS, keyNeHS, Ne.symm keyNeML, Ne.symm keyNeMW, Ne.symm keyNeMT, Ne.symm keyNeMH, Ne.symm keyNeMS, Ne.symm keyNeLW, Ne.symm keyNeLT, Ne.symm keyNeLH, Ne.symm keyNeLS, Ne.symm keyNeWT, Ne.symm keyNeWH, Ne.symm keyNeWS, Ne.symm keyNeTH, Ne.symm keyNeTS, Ne.symm keyNeHS]

theorem applyKV_light (key value : Str) (next : Option Str) (s : ServerState) :
    (applyKV key value next s).light =
      if key = kLight then some (jsParseInt value) else s.light := by
  cases next <;> simp only [applyKV] <;> split_ifs <;> first | rfl | simp_all [keyNeML, keyNeMW, keyNeMT, keyNeMH, keyNeMS, keyNeLW, keyNeLT, keyNeLH, keyNeLS, keyNeWT, keyNeWH, keyNeWS, keyNeTH, keyNeTS, keyNeHS, Ne.symm keyNeML, Ne.symm keyNeMW, Ne.symm keyNeMT, Ne.symm keyNeMH, Ne.symm keyNeMS, Ne.symm keyNeLW, Ne.symm keyNeLT, Ne.symm keyNeLH, Ne.symm keyNeLS, Ne.symm keyNeWT, Ne.symm keyNeWH, Ne.symm keyNeWS, Ne.symm keyNeTH, Ne.symm keyNeTS, Ne.symm keyNeHS]

theorem applyKV_water (key value : Str) (next : Option Str) (s : ServerState) :
    (applyKV key value next s).water =
      if key = kWater then some (jsParseInt value) else s.water := by
  cases next <;> simp only [applyKV] <;> split_ifs <;> first | rfl | simp_all [keyNeML, keyNeMW, keyNeMT, keyNeMH, keyNeMS, keyNeLW, keyNeLT, keyNeLH, keyNeLS, keyNeWT, keyNeWH, keyNeWS, keyNeTH, keyNeTS, keyNeHS, Ne.symm keyNeML, Ne.symm keyNeMW, Ne.symm keyNeMT, Ne.symm keyNeMH, Ne.symm keyNeMS, Ne.symm keyNeLW, Ne.symm keyNeLT, Ne.symm keyNeLH, Ne.symm keyNeLS, Ne.symm keyNeWT, Ne.symm keyNeWH, Ne.symm keyNeWS, Ne.symm keyNeTH, Ne.symm keyNeTS, Ne.symm keyNeHS]

theorem applyKV_temperature (key value : Str) (next : Option Str) (s : ServerState) :
    (applyKV key value next s).temperature =
      if key = kTemp then some (jsParseFloat value) else s.temperature := by
  cases next <;> simp only [applyKV] <;> split_ifs <;> first | rfl | simp_all [keyNeML, keyNeMW, keyNeMT, keyNeMH, keyNeMS, keyNeLW, keyNeLT, keyNeLH, keyNeLS, keyNeWT, keyNeWH, keyNeWS, keyNeTH, keyNeTS, keyNeHS, Ne.symm keyNeML, Ne.symm keyNeMW, Ne.symm keyNeMT, Ne.symm keyNeMH, Ne.symm keyNeMS, Ne.symm keyNeLW, Ne.symm keyNeLT, Ne.symm keyNeLH, Ne.symm keyNeLS, Ne.symm keyNeWT, Ne.symm keyNeWH, Ne.symm keyNeWS, Ne.symm keyNeTH, Ne.symm keyNeTS, Ne.symm keyNeHS]

theorem applyKV_humidity (key value : Str) (next : Option Str) (s : ServerState) :
    (applyKV key value next s).humidity =
      if key = kHumid then some (jsParseFloat value) else s.humidity := by
  cases next <;> simp only [applyKV] <;> split_ifs <;> first | rfl | simp_all [keyNeML, keyNeMW, keyNeMT, keyNeMH, keyNeMS, keyNeLW, keyNeLT, keyNeLH, keyNeLS, keyNeWT, keyNeWH, keyNeWS, keyNeTH, keyNeTS, keyNeHS, Ne.symm keyNeML, Ne.symm keyNeMW, Ne.symm keyNeMT, Ne.symm keyNeMH, Ne.symm keyNeMS, Ne.symm keyNeLW, Ne.symm keyNeLT, Ne.symm keyNeLH, Ne.symm keyNeLS, Ne.symm keyNeWT, Ne.symm keyNeWH, Ne.symm keyNeWS, Ne.symm keyNeTH, Ne.symm keyNeTS, Ne.symm keyNeHS]

theorem applyKV_servo (key value : Str) (next : Option Str) (s : ServerState) :
    (applyKV key value next s).servo =
      if key = kServo then some (jsParseInt value) else s.servo := by
  cases next <;> simp only [applyKV] <;> split_ifs <;> first | rfl | simp_all [keyNeML, keyNeMW, keyNeMT, keyNeMH, keyNeMS, keyNeLW, keyNeLT, keyNeLH, keyNeLS, keyNeWT, keyNeWH, keyNeWS, keyNeTH, keyNeTS, keyNeHS, Ne.symm keyNeML, Ne.symm keyNeMW, Ne.symm keyNeMT, Ne.symm keyNeMH, Ne.symm keyNeMS, Ne.symm keyNeLW, Ne.symm keyNeLT, Ne.symm keyNeLH, Ne.symm keyNeLS, Ne.symm keyNeWT, Ne.symm keyNeWH, Ne.symm keyNeWS, Ne.symm keyNeTH, Ne.symm keyNeTS, Ne.symm keyNeHS]

theorem applyKV_moistureStatus (key value : Str) (next : Option Str) (s : ServerState) :
    (applyKV key value next s).moistureStatus =
      if key = kMoisture then
        match next with
        | some nx => if hasChar nx ':' then s.moistureStatus else some (jsTrim nx)
        | none => s.moistureStatus
      else s.moistureStatus := by
  cases next <;> simp only [applyKV] <;> split_ifs <;> first | rfl | simp_all [keyNeML, keyNeMW, keyNeMT, keyNeMH, keyNeMS, keyNeLW, keyNeLT, keyNeLH, keyNeLS, keyNeWT, keyNeWH, keyNeWS, keyNeTH, keyNeTS, keyNeHS, Ne.symm keyNeML, Ne.symm keyNeMW, Ne.symm keyNeMT, Ne.symm keyNeMH, Ne.symm keyNeMS, Ne.symm keyNeLW, Ne.symm keyNeLT, Ne.symm keyNeLH, Ne.symm keyNeLS, Ne.symm keyNeWT, Ne.symm keyNeWH, Ne.symm keyNeWS, Ne.symm keyNeTH, Ne.symm keyNeTS, Ne.symm keyNeHS]

theorem applyKV_lightStatus (key value : Str) (next : Option Str) (s : ServerState) :
    (applyKV key value next s).lightStatus =
      if key = kLight then
        match next with
        | some nx => if hasChar nx ':' then s.lightStatus else some (jsTrim nx)
        | none => s.lightStatus
      else s.lightStatus := by
  cases next <;> simp only [applyKV] <;> split_ifs <;> first | rfl | simp_all [keyNeML, keyNeMW, keyNeMT, keyNeMH, keyNeMS, keyNeLW, keyNeLT, keyNeLH, keyNeLS, keyNeWT, keyNeWH, keyNeWS, keyNeTH, keyNeTS, keyNeHS, Ne.symm keyNeML, Ne.symm keyNeMW, Ne.symm keyNeMT, Ne.symm keyNeMH, Ne.symm keyNeMS, Ne.symm keyNeLW, Ne.symm keyNeLT, Ne.symm keyNeLH, Ne.symm keyNeLS, Ne.symm keyNeWT, Ne.symm keyNeWH, Ne.symm keyNeWS, Ne.symm keyNeTH, Ne.symm keyNeTS, Ne.symm keyNeHS]

theorem applyKV_waterStatus (key value : Str) (next : Option Str) (s : ServerState) :
    (applyKV key value next s).waterStatus =
      if key = kWater then
        match next with
        | some nx => if hasChar nx ':' then s.waterStatus else some (jsTrim nx)
        | none => s.waterStatus
      else s.waterStatus := by
  cases next <;> simp only [applyKV] <;> split_ifs <;> first | rfl | simp_all [keyNeML, keyNeMW, keyNeMT, keyNeMH, keyNeMS, keyNeLW, keyNeLT, keyNeLH, keyNeLS, keyNeWT, keyNeWH, keyNeWS, keyNeTH, keyNeTS, keyNeHS, Ne.symm keyNeML, Ne.symm keyNeMW, Ne.symm keyNeMT, Ne.symm keyNeMH, Ne.symm keyNeMS, Ne.symm keyNeLW, Ne.symm keyNeLT, Ne.symm keyNeLH, Ne.symm keyNeLS, Ne.symm keyNeWT, Ne.symm keyNeWH, Ne.symm keyNeWS, Ne.symm keyNeTH, Ne.symm keyNeTS, Ne.symm keyNeHS]

theorem applyKV_timestamp (key value : Str) (next : Option Str) (s : ServerState) :
    (applyKV key value next s).timestamp = s.timestamp := by
  cases next <;> simp only [applyKV] <;> split_ifs <;> first | rfl | simp_all [keyNeML, keyNeMW, keyNeMT, keyNeMH, keyNeMS, keyNeLW, keyNeLT, keyNeLH, keyNeLS, keyNeWT, keyNeWH, keyNeWS, keyNeTH, keyNeTS, keyNeHS, Ne.symm keyNeML, Ne.symm keyNeMW, Ne.symm keyNeMT, Ne.symm keyNeMH, Ne.symm keyNeMS, Ne.symm keyNeLW, Ne.symm keyNeLT, Ne.symm keyNeLH, Ne.symm keyNeLS, Ne.symm keyNeWT, Ne.symm keyNeWH, Ne.symm keyNeWS, Ne.symm keyNeTH, Ne.symm keyNeTS, Ne.symm keyNeHS]

theorem applyKV_raw (key value : Str) (next : Option Str) (s : ServerState) :
    (applyKV key value next s).raw = s.raw := by
  cases next <;> simp only [applyKV] <;> split_ifs <;> first | rfl | simp_all [keyNeML, keyNeMW, keyNeMT, keyNeMH, keyNeMS, keyNeLW, keyNeLT, keyNeLH, keyNeLS, keyNeWT, keyNeWH, keyNeWS, keyNeTH, keyNeTS, keyNeHS, Ne.symm keyNeML, Ne.symm keyNeMW, Ne.symm keyNeMT, Ne.symm keyNeMH, Ne.symm keyNeMS, Ne.symm keyNeLW, Ne.symm keyNeLT, Ne.symm keyNeLH, Ne.symm keyNeLS, Ne.symm keyNeWT, Ne.symm keyNeWH, Ne.symm keyNeWS, Ne.symm keyNeTH, Ne.symm keyNeTS, Ne.symm keyNeHS]

theorem applyKV_pending (key value : Str) (next : Option Str) (s : ServerState) :
    (applyKV key value next s).requestedServoPosition = s.requestedServoPosition := by
  cases next <;> simp only [applyKV] <;> split_ifs <;> first | rfl | simp_all [keyNeML, keyNeMW, keyNeMT, keyNeMH, keyNeMS, keyNeLW, keyNeLT, keyNeLH, keyNeLS, keyNeWT, keyNeWH, keyNeWS, keyNeTH, keyNeTS, keyNeHS, Ne.symm keyNeML, Ne.symm keyNeMW, Ne.symm keyNeMT, Ne.symm keyNeMH, Ne.symm keyNeMS, Ne.symm keyNeLW, Ne.symm keyNeLT, Ne.symm keyNeLH, Ne.symm keyNeLS, Ne.symm keyNeWT, Ne.symm keyNeWH, Ne.symm keyNeWS, Ne.symm keyNeTH, Ne.symm keyNeTS, Ne.symm keyNeHS]

/-! ## Step projection lemmas -/

theorem step_moisture (p : Str) (nx : Option Str) (s : ServerState) :
    (step p nx s).moisture =
      if isKeyTok kMoisture p then some (jsParseInt (tokVal p)) else s.moisture := by
  unfold step isKeyTok tokKey? tokVal
  by_cases h : hasChar (jsTrim p) ':'
  · rcases hs : splitChar ':' (jsTrim p) with _ | ⟨key, restP⟩
    · simp [h, hs]
    · simp [h, hs, applyKV_moisture]
  · simp [h]

theorem step_light (p : Str) (nx : Option Str) (s : ServerState) :
    (step p nx s).light =
      if isKeyTok kLight p then some (jsParseInt (tokVal p)) else s.light := by
  unfold step isKeyTok tokKey? tokVal
  by_cases h : hasChar (jsTrim p) ':'
  · rcases hs : splitChar ':' (jsTrim p) with _ | ⟨key, restP⟩
    · simp [h, hs]
    · simp [h, hs, applyKV_light]
  · simp [h]

theorem step_water (p : Str) (nx : Option Str) (s : ServerState) :
    (step p nx s).water =
      if isKeyTok kWater p then some (jsParseInt (tokVal p)) else s.water := by
  unfold step isKeyTok tokKey? tokVal
  by_cases h : hasChar (jsTrim p) ':'
  · rcases hs : splitChar ':' (jsTrim p) with _ | ⟨key, restP⟩
    · simp [h, hs]
    · simp [h, hs, applyKV_water]
  · simp [h]

theorem step_temperature (p : Str) (nx : Option Str) (s : ServerState) :
    (step p nx s).temperature =
      if isKeyTok kTemp p then some (jsParseFloat (tokVal p)) else s.temperature := by
  unfold step isKeyTok tokKey? tokVal
  by_cases h : hasChar (jsTrim p) ':'
  · rcases hs : splitChar ':' (jsTrim p) with _ | ⟨key, restP⟩
    · simp [h, hs]
    · simp [h, hs, applyKV_temperature]
  · simp [h]

theorem step_humidity (p : Str) (nx : Option Str) (s : ServerState) :
    (step p nx s).humidity =
      if isKeyTok kHumid p then some (jsParseFloat (tokVal p)) else s.humidity := by
  unfold step isKeyTok tokKey? tokVal
  by_cases h : hasChar (jsTrim p) ':'
  · rcases hs : splitChar ':' (jsTrim p) with _ | ⟨key, restP⟩
    · simp [h, hs]
    · simp [h, hs, applyKV_humidity]
  · simp [h]

theorem step_servo (p : Str) (nx : Option Str) (s : ServerState) :
    (step p nx s).servo =
      if isKeyTok kServo p then some (jsParseInt (tokVal p)) else s.servo := by
  unfold step isKeyTok tokKey? tokVal
  by_cases h : hasChar (jsTrim p) ':'
  · rcases hs : splitChar ':' (jsTrim p) with _ | ⟨key, restP⟩
    · simp [h, hs]
    · simp [h, hs, applyKV_servo]
  · simp [h]

theorem step_moistureStatus (p : Str) (nx : Option Str) (s : ServerState) :
    (step p nx s).moistureStatus =
      match statusContrib kMoisture p nx with
      | some v => some v
      | none => s.moistureStatus := by
  unfold step statusContrib isKeyTok tokKey?
  by_cases h : hasChar (jsTrim p) ':'
  · rcases hs : splitChar ':' (jsTrim p) with _ | ⟨key, restP⟩
    · simp [h, hs]
    · simp only [h, hs, if_true, applyKV_moistureStatus]
      cases nx with
      | none => split_ifs <;> simp_all
      | some nxv => by_cases hx : hasChar nxv ':' <;> split_ifs <;> simp_all
  · simp [h]

theorem step_lightStatus (p : Str) (nx : Option Str) (s : ServerState) :
    (step p nx s).lightStatus =
      match statusContrib kLight p nx with
      | some v => some v
      | none => s.lightStatus := by
  unfold step statusContrib isKeyTok tokKey?
  by_cases h : hasChar (jsTrim p) ':'
  · rcases hs : splitChar ':' (jsTrim p) with _ | ⟨key, restP⟩
    · simp [h, hs]
    · simp only [h, hs, if_true, applyKV_lightStatus]
      cases nx with
      | none => split_ifs <;> simp_all
      | some nxv => by_cases hx : hasChar nxv ':' <;> split_ifs <;> simp_all
  · simp [h]

theorem step_waterStatus (p : Str) (nx : Option Str) (s : ServerState) :
    (step p nx s).waterStatus =
      match statusContrib kWater p nx with
      | some v => some v
      | none => s.waterStatus := by
  unfold step statusContrib isKeyTok tokKey?
  by_cases h : hasChar (jsTrim p) ':'
  · rcases hs : splitChar ':' (jsTrim p) with _ | ⟨key, restP⟩
    · simp [h, hs]
    · simp only [h, hs, if_true, applyKV_waterStatus]
      cases nx with
      | none => split_ifs <;> simp_all
      | some nxv => by_cases hx : hasChar nxv ':' <;> split_ifs <;> simp_all
  · simp [h]

theorem step_timestamp (p : Str) (nx : Option Str) (s : ServerState) :
    (step p nx s).timestamp = s.timestamp := by
  unfold step
  by_cases h : hasChar (jsTrim p) ':'
  · rcases hs : splitChar ':' (jsTrim p) with _ | ⟨key, restP⟩ <;>
      simp [h, hs, applyKV_timestamp]
  · simp [h]

theorem step_raw (p : Str) (nx : Option Str) (s : ServerState) :
    (step p nx s).raw = s.raw := by
  unfold step
  by_cases h : hasChar (jsTrim p) ':'
  · rcases hs : splitChar ':' (jsTrim p) with _ | ⟨key, restP⟩ <;>
      simp [h, hs, applyKV_raw]
  · simp [h]

theorem step_pending (p : Str) (nx : Option Str) (s : ServerState) :
    (step p nx s).requestedServoPosition = s.requestedServoPosition := by
  unfold step
  by_cases h : hasChar (jsTrim p) ':'
  · rcases hs : splitChar ':' (jsTrim p) with _ | ⟨key, restP⟩ <;>
      simp [h, hs, applyKV_pending]
  · simp [h]


/-! ## Loop characterization lemmas

The final value of every field of the parse loop is characterized by the
token-level specification functions `lastVal` and `lastStatus`. -/

theorem lastStatus_cons (k p : Str) (rest : List Str) :
    lastStatus k (p :: rest) =
      match lastStatus k rest with
      | some v => some v
      | none => statusContrib k p rest.head? := by
  cases rest <;> simp [lastStatus, lastStatusB]

theorem loop_moisture (parts : List Str) (s : ServerState) :
    (loop parts s).moisture =
      match lastVal kMoisture parts with
      | some v => some (jsParseInt v)
      | none => s.moisture := by
  induction parts generalizing s with
  | nil => rfl
  | cons p rest ih =>
    simp only [loop, lastVal, ih, step_moisture]
    cases h : lastVal kMoisture rest <;>
      simp [h, valContrib] <;> split_ifs <;> rfl

theorem loop_light (parts : List Str) (s : ServerState) :
    (loop parts s).light =
      match lastVal kLight parts with
      | some v => some (jsParseInt v)
      | none => s.light := by
  induction parts generalizing s with
  | nil => rfl
  | cons p rest ih =>
    simp only [loop, lastVal, ih, step_light]
    cases h : lastVal kLight rest <;>
      simp [h, valContrib] <;> split_ifs <;> rfl

theorem loop_water (parts : List Str) (s : ServerState) :
    (loop parts s).water =
      match lastVal kWater parts with
      | some v => some (jsParseInt v)
      | none => s.water := by
  induction parts generalizing s with
  | nil => rfl
  | cons p rest ih =>
    simp only [loop, lastVal, ih, step_water]
    cases h : lastVal kWater rest <;>
      simp [h, valContrib] <;> split_ifs <;> rfl

theorem loop_temperature (parts : List Str) (s : ServerState) :
    (loop parts s).temperature =
      match lastVal kTemp parts with
      | some v => some (jsParseFloat v)
      | none => s.temperature := by
  induction parts generalizing s with
  | nil => rfl
  | cons p rest ih =>
    simp only [loop, lastVal, ih, step_temperature]
    cases h : lastVal kTemp rest <;>
      simp [h, valContrib] <;> split_ifs <;> rfl

theorem loop_humidity (parts : List Str) (s : ServerState) :
    (loop parts s).humidity =
      match lastVal kHumid parts with
      | some v => some (jsParseFloat v)
      | none => s.humidity := by
  induction parts generalizing s with
  | nil => rfl
  | cons p rest ih =>
    simp only [loop, lastVal, ih, step_humidity]
    cases h : lastVal kHumid rest <;>
      simp [h, valContrib] <;> split_ifs <;> rfl

theorem loop_servo (parts : List Str) (s : ServerState) :
    (loop parts s).servo =
      match lastVal kServo parts with
      | some v => some (jsParseInt v)
      | none => s.servo := by
  induction parts generalizing s with
  | nil => rfl
  | cons p rest ih =>
    simp only [loop, lastVal, ih, step_servo]
    cases h : lastVal kServo rest <;>
      simp [h, valContrib] <;> split_ifs <;> rfl

theorem loop_moistureStatus (parts : List Str) (s : ServerState) :
    (loop parts s).moistureStatus =
      match lastStatus kMoisture parts with
      | some v => some v
      | none => s.moistureStatus := by
  induction parts generalizing s with
  | nil => rfl
  | cons p rest ih =>
    rw [lastStatus_cons]
    simp only [loop, ih, step_moistureStatus]
    cases h : lastStatus kMoisture rest <;>
      cases hc : statusContrib kMoisture p rest.head? <;> simp [h, hc]

theorem loop_lightStatus (parts : List Str) (s : ServerState) :
    (loop parts s).lightStatus =
      match lastStatus kLight parts with
      | some v => some v
      | none => s.lightStatus := by
  induction parts generalizing s with
  | nil => rfl
  | cons p rest ih =>
    rw [lastStatus_cons]
    simp only [loop, ih, step_lightStatus]
    cases h : lastStatus kLight rest <;>
      cases hc : statusContrib kLight p rest.head? <;> simp [h, hc]

theorem loop_waterStatus (parts : List Str) (s : ServerState) :
    (loop parts s).waterStatus =
      match lastStatus kWater parts with
      | some v => some v
      | none => s.waterStatus := by
  induction parts generalizing s with
  | nil => rfl
  | cons p rest ih =>
    rw [lastStatus_cons]
    simp only [loop, ih, step_waterStatus]
    cases h : lastStatus kWater rest <;>
      cases hc : statusContrib kWater p rest.head? <;> simp [h, hc]

theorem loop_timestamp (parts : List Str) (s : ServerState) :
    (loop parts s).timestamp = s.timestamp := by
  induction parts generalizing s with
  | nil => rfl
  | cons p rest ih => simp [loop, ih, step_timestamp]

theorem loop_raw (parts : List Str) (s : ServerState) :
    (loop parts s).raw = s.raw := by
  induction parts generalizing s with
  | nil => rfl
  | cons p rest ih => simp [loop, ih, step_raw]

theorem loop_pending (parts : List Str) (s : ServerState) :
    (loop parts s).requestedServoPosition = s.requestedServoPosition := by
  induction parts generalizing s with
  | nil => rfl
  | cons p rest ih => simp [loop, ih, step_pending]

/-! ## Helper lemmas shared by the claims -/

/-- The sensor fields produced by the parse loop depend on the start state
only through its sensor fields. -/
theorem loop_sensors_congr (parts : List Str) (s t : ServerState)
    (h : s.sensors = t.sensors) : (loop parts s).sensors = (loop parts t).sensors := by
  have hm : s.moisture = t.moisture := congrArg SensorFields.moisture h
  have hms : s.moistureStatus = t.moistureStatus := congrArg SensorFields.moistureStatus h
  have hl : s.light = t.light := congrArg SensorFields.light h
  have hls : s.lightStatus = t.lightStatus := congrArg SensorFields.lightStatus h
  have hw : s.water = t.water := congrArg SensorFields.water h
  have hws : s.waterStatus = t.waterStatus := congrArg SensorFields.waterStatus h
  have ht : s.temperature = t.temperature := congrArg SensorFields.temperature h
  have hh : s.humidity = t.humidity := congrArg SensorFields.humidity h
  have hv : s.servo = t.servo := congrArg SensorFields.servo h
  unfold ServerState.sensors
  simp only [SensorFields.mk.injEq]
  refine ⟨?_, ?_, ?_, ?_, ?_, ?_, ?_, ?_, ?_⟩
  · rw [loop_moisture, loop_moisture, hm]
  · rw [loop_moistureStatus, loop_moistureStatus, hms]
  · rw [loop_light, loop_light, hl]
  · rw [loop_lightStatus, loop_lightStatus, hls]
  · rw [loop_water, loop_water, hw]
  · rw [loop_waterStatus, loop_waterStatus, hws]
  · rw [loop_temperature, loop_temperature, ht]
  · rw [loop_humidity, loop_humidity, hh]
  · rw [loop_servo, loop_servo, hv]

/-- After an ingest the sensor fields are exactly the pure parse of the raw
string: the handler resets them all before running the loop. -/
theorem postData_sensors (s : ServerState) (rawData now : Str) (sink : SinkOutcome) :
    (postData s rawData now sink).state.sensors = pureParse rawData := by
  simp only [postData, pureParse]
  exact loop_sensors_congr _ _ _ rfl

/-! ## Claim theorems (first batch) -/

/-- C2: every ingest re-stamps `timestamp` to the receipt instant, resets all
optional sensor fields to absent before applying the parser's output (so the
resulting sensor fields are exactly the pure parse of the new raw string and
never depend on the previous reading), and sets `raw` to the original string
unconditionally — `raw` is never absent after an ingest, even when nothing in
the line parses. -/
theorem ingest_fully_replaces_reading (prev prev' : ServerState) (rawData now : Str)
    (sink sink' : SinkOutcome) :
    (postData prev rawData now sink).state.raw = rawData ∧
    (postData prev rawData now sink).state.timestamp = now ∧
    (postData prev rawData now sink).state.sensors = pureParse rawData ∧
    (postData prev rawData now sink).state.sensors =
      (postData prev' rawData now sink').state.sensors := by
  refine ⟨?_, ?_, postData_sensors _ _ _ _, ?_⟩
  · simp [postData, loop_raw]
  · simp [postData, loop_timestamp]
  · rw [postData_sensors, postData_sensors]

/-- C3: the parser attaches a status to `Moisture`/`Light`/`Water` exactly as
`lastStatus` prescribes — a status is attached to a key occurrence precisely
when the token immediately following that key's token in the comma-split
sequence exists and does not contain `":"`, the attached status being that
next token trimmed (later occurrences win); and a bare token (one whose
trimmed form contains no `":"`) is ignored without error: it changes no
state. -/
theorem parser_status_attachment (raw : Str) (p : Str) (nx : Option Str) (t : ServerState)
    (hbare : hasChar (jsTrim p) ':' = false) :
    (pureParse raw).moistureStatus = lastStatus kMoisture (splitChar ',' raw) ∧
    (pureParse raw).lightStatus = lastStatus kLight (splitChar ',' raw) ∧
    (pureParse raw).waterStatus = lastStatus kWater (splitChar ',' raw) ∧
    step p nx t = t := by
  refine ⟨?_, ?_, ?_, ?_⟩
  · simp only [pureParse, ServerState.sensors, loop_moistureStatus]
    cases lastStatus kMoisture (splitChar ',' raw) <;> rfl
  · simp only [pureParse, ServerState.sensors, loop_lightStatus]
    cases lastStatus kLight (splitChar ',' raw) <;> rfl
  · simp only [pureParse, ServerState.sensors, loop_waterStatus]
    cases lastStatus kWater (splitChar ',' raw) <;> rfl
  · unfold step
    simp [hbare]

/-- C3 witness: the general statement applied at a concrete bare token. -/
theorem parser_status_attachment_witness :
    hasChar (jsTrim " DRY ".data) ':' = false ∧
    ((pureParse "Moisture:1,DRY".data).moistureStatus =
        lastStatus kMoisture (splitChar ',' "Moisture:1,DRY".data) ∧
     (pureParse "Moisture:1,DRY".data).lightStatus =
        lastStatus kLight (splitChar ',' "Moisture:1,DRY".data) ∧
     (pureParse "Moisture:1,DRY".data).waterStatus =
        lastStatus kWater (splitChar ',' "Moisture:1,DRY".data) ∧
     step " DRY ".data (some "x".data) blankState = blankState) :=
  ⟨by decide, parser_status_attachment "Moisture:1,DRY".data " DRY ".data
      (some "x".data) blankState (by decide)⟩

/-- C4: after one `POST /servo` stores position `q`, the first
`GET /servo-check` returns success with `q` and clears the slot in the same
step, and an immediately following `GET /servo-check` returns `no_request`;
the `no_request` indicator is distinct from a success carrying position 0
(which the quantification over `q` covers at `q = 0`). -/
theorem servo_check_consumes_exactly_once (s : ServerState) (q : ℚ) (sink : SinkOutcome) :
    (servoCheck ((expressPostServo s (.num q) sink).state)).1 = .success (.num q) ∧
    (servoCheck ((expressPostServo s (.num q) sink).state)).2.requestedServoPosition = .undef ∧
    (servoCheck (servoCheck ((expressPostServo s (.num q) sink).state)).2).1 = .noRequest ∧
    ServoCheckResp.noRequest ≠ ServoCheckResp.success (.num 0) := by
  unfold expressPostServo servoCheck
  simp

/-- C6: the parser is total and best-effort.  Every field's final value is the
total function of the token sequence given by `lastVal` (so the whole line is
always scanned: a failing token does not stop later tokens from being
processed); a key token whose value fails numeric parsing yields the `NaN`
sentinel in its field rather than an exception (shown for `Moisture`); and a
token that is a key token for none of the six recognized keys — including
bare words — leaves the state untouched. -/
theorem parser_total_best_effort (parts : List Str) (s : ServerState) (v : Str)
    (hv : lastVal kMoisture parts = some v) (hfail : jsParseIntI v = none) :
    (loop parts s).moisture = some JsNum.nan ∧
    ((loop parts s).light =
      match lastVal kLight parts with
      | some w => some (jsParseInt w)
      | none => s.light) ∧
    ((loop parts s).water =
      match lastVal kWater parts with
      | some w => some (jsParseInt w)
      | none => s.water) ∧
    ((loop parts s).temperature =
      match lastVal kTemp parts with
      | some w => some (jsParseFloat w)
      | none => s.temperature) ∧
    ((loop parts s).humidity =
      match lastVal kHumid parts with
      | some w => some (jsParseFloat w)
      | none => s.humidity) ∧
    ((loop parts s).servo =
      match lastVal kServo parts with
      | some w => some (jsParseInt w)
      | none => s.servo) ∧
    (∀ p nxt t, (∀ k ∈ recognizedKeys, ¬ isKeyTok k p) → step p nxt t = t) := by
  refine ⟨?_, loop_light _ _, loop_water _ _, loop_temperature _ _,
    loop_humidity _ _, loop_servo _ _, ?_⟩
  · rw [loop_moisture, hv]
    simp [jsParseInt, hfail]
  · intro p nxt t hk
    unfold step
    by_cases h : hasChar (jsTrim p) ':'
    · rcases hs : splitChar ':' (jsTrim p) with _ | ⟨key, restP⟩
      · simp [h, hs]
      · simp only [h, hs, if_true]
        have hnot : ∀ k ∈ recognizedKeys, key ≠ k := by
          intro k hkmem heq
          exact hk k hkmem (by unfold isKeyTok tokKey?; simp [h, hs, heq])
        simp only [recognizedKeys, List.mem_cons, List.mem_singleton] at hnot
        unfold applyKV
        split_ifs <;> simp_all
    · simp [h]

/-- C6 witness: a `Moisture` token with unparseable value yields the `NaN`
sentinel while the rest of the line is still parsed. -/
theorem parser_total_best_effort_witness :
    lastVal kMoisture (splitChar ',' "Moisture:abc,Temp:25.0".data) = some "abc".data ∧
    jsParseIntI "abc".data = none ∧
    ((loop (splitChar ',' "Moisture:abc,Temp:25.0".data) blankState).moisture =
      some JsNum.nan ∧
     ((loop (splitChar ',' "Moisture:abc,Temp:25.0".data) blankState).light =
       match lastVal kLight (splitChar ',' "Moisture:abc,Temp:25.0".data) with
       | some w => some (jsParseInt w)
       | none => blankState.light) ∧
     ((loop (splitChar ',' "Moisture:abc,Temp:25.0".data) blankState).water =
       match lastVal kWater (splitChar ',' "Moisture:abc,Temp:25.0".data) with
       | some w => some (jsParseInt w)
       | none => blankState.water) ∧
     ((loop (splitChar ',' "Moisture:abc,Temp:25.0".data) blankState).temperature =
       match lastVal kTemp (splitChar ',' "Moisture:abc,Temp:25.0".data) with
       | some w => some (jsParseFloat w)
       | none => blankState.temperature) ∧
     ((loop (splitChar ',' "Moisture:abc,Temp:25.0".data) blankState).humidity =
       match lastVal kHumid (splitChar ',' "Moisture:abc,Temp:25.0".data) with
       | some w => some (jsParseFloat w)
       | none => blankState.humidity) ∧
     ((loop (splitChar ',' "Moisture:abc,Temp:25.0".data) blankState).servo =
       match lastVal kServo (splitChar ',' "Moisture:abc,Temp:25.0".data) with
       | some w => some (jsParseInt w)
       | none => blankState.servo) ∧
     (∀ p nxt t, (∀ k ∈ recognizedKeys, ¬ isKeyTok k p) → step p nxt t = t)) :=
  ⟨by decide, by decide,
   parser_total_best_effort (splitChar ',' "Moisture:abc,Temp:25.0".data) blankState
     "abc".data (by decide) (by decide)⟩

/-- C7: a failing durable-sink write (log-file append or database save) never
changes the `POST /data` response — which is the ingestion success body — nor
the in-memory Reading: state and response are identical whatever the sink
outcomes, and the failures only surface as independent error-log events. -/
theorem ingest_isolates_durable_failures (s : ServerState) (rawData now : Str)
    (sink sink' : SinkOutcome) :
    (postData s rawData now sink).resp = .success ∧
    (postData s rawData now sink).state = (postData s rawData now sink').state ∧
    (postData s rawData now sink).resp = (postData s rawData now sink').resp :=
  ⟨rfl, rfl, rfl⟩

/-- C9: the Reading and the Command Mailbox do not interfere.  Ingestion
preserves the pending servo command even though it rewrites every sensor field
of the same shared object; `GET /servo-check` preserves the whole Reading
(timestamp, raw and all sensor fields); and the `GET /data` serialization
carries the `requestedServoPosition` key exactly when a command is pending
(`JSON.stringify` omits `undefined`-valued properties). -/
theorem reading_mailbox_noninterference (s t u : ServerState) (rawData now : Str)
    (sink : SinkOutcome) :
    (postData s rawData now sink).state.requestedServoPosition = s.requestedServoPosition ∧
    (servoCheck t).2.timestamp = t.timestamp ∧
    (servoCheck t).2.raw = t.raw ∧
    (servoCheck t).2.sensors = t.sensors ∧
    ("requestedServoPosition" ∈ serializedKeys u ↔ u.requestedServoPosition ≠ .undef) := by
  refine ⟨?_, ?_, ?_, ?_, ?_⟩
  · simp [postData, loop_pending]
  · unfold servoCheck; split_ifs <;> rfl
  · unfold servoCheck; split_ifs <;> rfl
  · unfold servoCheck; split_ifs <;> rfl
  · by_cases h : u.requestedServoPosition = .undef <;> simp [serializedKeys, h] <;> decide

/-- C1 counterexample: `POST /servo` on the Express server — the endpoint that
owns the Command Mailbox — accepts the out-of-range position 200: it responds
with HTTP 200 success (not a client error) and mutates the mailbox from empty
to 200. -/
theorem servo_endpoint_accepts_out_of_range :
    (expressPostServo (initialState []) (.num 200) ⟨true, true⟩).resp = .success (.num 200) ∧
    servoRespStatus (expressPostServo (initialState []) (.num 200) ⟨true, true⟩).resp = 200 ∧
    (expressPostServo (initialState []) (.num 200) ⟨true, true⟩).state.requestedServoPosition
      = .num 200 ∧
    (initialState []).requestedServoPosition = .undef :=
  ⟨rfl, rfl, rfl, rfl⟩

/-- C1 (amended): position validation lives only in the Next.js
`POST /api/servo` route, which rejects a non-number or out-of-range position
with a 400 client error and touches no mailbox; the Express `POST /servo`
endpoint that owns the Command Mailbox performs no validation — it stores any
position (valid or not) into the mailbox and responds success. -/
theorem servo_validation_only_in_route (v : JsVal)
    (h : match v with | .num q => q < 0 ∨ q > 180 | _ => True)
    (s : ServerState) (sink : SinkOutcome) :
    routePOST v = .badRequest ∧ routeStatus (routePOST v) = 400 ∧
    (expressPostServo s v sink).state.requestedServoPosition = v ∧
    (expressPostServo s v sink).resp = .success v := by
  have h1 : routePOST v = .badRequest := by
    cases v <;> simp_all [routePOST]
  exact ⟨h1, by rw [h1]; rfl, rfl, rfl⟩

/-- C1 witness: the amended statement applied at position 200. -/
theorem servo_validation_only_in_route_witness :
    ((200 : ℚ) < 0 ∨ (200 : ℚ) > 180) ∧
    (routePOST (.num 200) = .badRequest ∧ routeStatus (routePOST (.num 200)) = 400 ∧
     (expressPostServo (initialState []) (.num 200) ⟨true, true⟩).state.requestedServoPosition
       = .num 200 ∧
     (expressPostServo (initialState []) (.num 200) ⟨true, true⟩).resp = .success (.num 200)) :=
  ⟨Or.inr (by norm_num),
   servo_validation_only_in_route (.num 200) (Or.inr (by norm_num)) (initialState []) ⟨true, true⟩⟩

/-! ## Durable store queries (`GET /data/history`, `GET /logs`)

The durable store is MongoDB; `getHistoricalData` and `getLogs` in
`mongodb.js` are thin wrappers over
`find(query).sort({timestamp: -1}).skip(skip).limit(limit)`.  The store is
modelled as a list of documents and the Mongo pipeline as: sort by timestamp
descending, drop `skip` documents, then apply the limit.  `limit(0)` means no
limit in MongoDB and is modelled as returning everything after the skip; a
negative limit is taken by absolute value, as Mongo does; Mongo raises an
error on a negative skip — the model clamps it to 0, and every theorem below
uses only non-negative skips. -/

/-- Insertion into a timestamp-descending list. -/
def insertByTs {α : Type} (tsOf : α → Nat) (d : α) : List α → List α
  | [] => [d]
  | e :: rest => if tsOf e ≤ tsOf d then d :: e :: rest else e :: insertByTs tsOf d rest

/-- Sort a document list by timestamp, newest first. -/
def sortByTsDesc {α : Type} (tsOf : α → Nat) : List α → List α
  | [] => []
  | d :: rest => insertByTs tsOf d (sortByTsDesc tsOf rest)

theorem insertByTs_perm {α : Type} (tsOf : α → Nat) (d : α) (l : List α) :
    (insertByTs tsOf d l).Perm (d :: l) := by
  induction l with
  | nil => exact .refl _
  | cons e rest ih =>
    unfold insertByTs
    split_ifs
    · exact .refl _
    · exact (List.Perm.cons e ih).trans (List.Perm.swap d e rest)

theorem sortByTsDesc_perm {α : Type} (tsOf : α → Nat) (l : List α) :
    (sortByTsDesc tsOf l).Perm l := by
  induction l with
  | nil => exact .refl _
  | cons d rest ih => exact (insertByTs_perm tsOf d _).trans (ih.cons d)

theorem insertByTs_sorted {α : Type} (tsOf : α → Nat) (d : α) (l : List α)
    (h : l.Pairwise (fun a b => tsOf b ≤ tsOf a)) :
    (insertByTs tsOf d l).Pairwise (fun a b => tsOf b ≤ tsOf a) := by
  induction l with
  | nil => simp [insertByTs]
  | cons e rest ih =>
    rcases List.pairwise_cons.mp h with ⟨he, hrest⟩
    unfold insertByTs
    split_ifs with hc
    · refine List.pairwise_cons.mpr ⟨?_, h⟩
      intro x hx
      rcases List.mem_cons.mp hx with rfl | hx'
      · exact hc
      · exact le_trans (he x hx') hc
    · refine List.pairwise_cons.mpr ⟨?_, ih hrest⟩
      intro x hx
      have hx2 : x ∈ d :: rest := (insertByTs_perm tsOf d rest).mem_iff.mp hx
      rcases List.mem_cons.mp hx2 with rfl | hx'
      · omega
      · exact he x hx'

theorem sortByTsDesc_sorted {α : Type} (tsOf : α → Nat) (l : List α) :
    (sortByTsDesc tsOf l).Pairwise (fun a b => tsOf b ≤ tsOf a) := by
  induction l with
  | nil => simp [sortByTsDesc]
  | cons d rest ih => exact insertByTs_sorted tsOf d _ ih

/-- A stored sensor document: the saved Reading with its timestamp (Mongo
`Date`s are modelled as naturals in their order). -/
structure SensorDoc where
  ts : Nat
  body : SensorFields
deriving DecidableEq, Repr

/-- `getHistoricalData(limit, skip)` from `mongodb.js`:
`SensorData.find({}).sort({timestamp: -1}).skip(skip).limit(limit)`, with
Mongo's `limit(0)` meaning no limit. -/
def getHistoricalData (store : List SensorDoc) (limit skip : Int) : List SensorDoc :=
  if limit = 0 then (sortByTsDesc SensorDoc.ts store).drop skip.toNat
  else ((sortByTsDesc SensorDoc.ts store).drop skip.toNat).take limit.natAbs

/-- `parseInt(x) || dflt` on an optional query parameter: a missing
parameter parses to `NaN`, and both `NaN` and `0` are falsy, so they fall back
to the default. -/
def queryNum (q : Option Str) (dflt : Int) : Int :=
  match q with
  | none => dflt
  | some s =>
    match jsParseIntI s with
    | none => dflt
    | some n => if n = 0 then dflt else n

/-- The `GET /data/history` handler: `parseInt(req.query.limit) || 100` and
`parseInt(req.query.skip) || 0`, then the Mongo query.  The second component
is the store after the request — the query writes nothing. -/
def dataHistoryEndpoint (store : List SensorDoc) (limitQ skipQ : Option Str) :
    List SensorDoc × List SensorDoc :=
  (getHistoricalData store (queryNum limitQ 100) (queryNum skipQ 0), store)

/-- The kinds of durable log records. -/
inductive LogType where
  | sensor
  | servo
  | system
  | error
deriving DecidableEq, Repr

/-- A stored log document. -/
structure LogDoc where
  ts : Nat
  type : LogType
  message : Str
deriving DecidableEq, Repr

/-- Options of `getLogs` in `mongodb.js`. -/
structure LogQueryOptions where
  type : Option LogType
  limit : Int
  skip : Int
  startDate : Option Nat
  endDate : Option Nat

/-- `getLogs(options)` from `mongodb.js`: filter by exact type when given and
by inclusive timestamp bounds when given, then
`sort({timestamp: -1}).skip(skip).limit(limit)`. -/
def getLogs (store : List LogDoc) (o : LogQueryOptions) : List LogDoc :=
  let q1 := match o.type with
    | some t => store.filter (fun d => d.type == t)
    | none => store
  let q2 := match o.startDate with
    | some a => q1.filter (fun d => decide (a ≤ d.ts))
    | none => q1
  let q3 := match o.endDate with
    | some b => q2.filter (fun d => decide (d.ts ≤ b))
    | none => q2
  if o.limit = 0 then (sortByTsDesc LogDoc.ts q3).drop o.skip.toNat
  else ((sortByTsDesc LogDoc.ts q3).drop o.skip.toNat).take o.limit.natAbs

/-- The `GET /logs` handler: the same `parseInt(x) || default` coercion for
`limit` and `skip`, passing `type` and the date bounds through. -/
def logsEndpoint (store : List LogDoc) (typeQ : Option LogType) (limitQ skipQ : Option Str)
    (startQ endQ : Option Nat) : List LogDoc × List LogDoc :=
  (getLogs store { type := typeQ, limit := queryNum limitQ 100, skip := queryNum skipQ 0,
                   startDate := startQ, endDate := endQ }, store)

/-- All-absent sensor fields (used for demonstration documents). -/
def blankSensors : SensorFields :=
  { moisture := none, moistureStatus := none, light := none, lightStatus := none,
    water := none, waterStatus := none, temperature := none, humidity := none, servo := none }

/-- A demonstration document with the given timestamp. -/
def demoDoc (n : Nat) : SensorDoc := { ts := n, body := blankSensors }

/-- A demonstration store of 5 ingested readings, in scrambled insertion order. -/
def demoStore : List SensorDoc :=
  [demoDoc 2, demoDoc 5, demoDoc 1, demoDoc 4, demoDoc 3]

/-- C8: `history(limit, skip)` returns the stored readings newest first,
skipping the first `skip` and returning at most `limit` of them: for every
positive limit the result is `take limit` of `drop skip` of a
timestamp-descending permutation of the store, it is itself sorted newest
first, draws only from the store, is empty on an empty store, the endpoint
defaults are `limit = 100`, `skip = 0`, the query leaves the store unchanged,
and over the 5-reading demonstration store `limit = 2, skip = 0` returns the
2 most recent, newest first.  The limit is hypothesized positive because
Mongo's `limit(0)` means no limit (the dedicated conjunct shows the model
returning everything after the skip at limit 0), and the endpoint's
`parseInt(limit) || 100` coercion can never pass 0 to the query — the
`queryNum q 100 ≠ 0` conjunct. -/
theorem history_query_contract (store : List SensorDoc) (limit skip : Int)
    (hl : 0 < limit) (hs : 0 ≤ skip) :
    (∃ sorted : List SensorDoc, sorted.Perm store ∧ sorted.Pairwise (fun a b => b.ts ≤ a.ts) ∧
        getHistoricalData store limit skip = (sorted.drop skip.toNat).take limit.toNat) ∧
    (getHistoricalData store limit skip).length ≤ limit.toNat ∧
    (getHistoricalData store limit skip).Pairwise (fun a b => b.ts ≤ a.ts) ∧
    (∀ d ∈ getHistoricalData store limit skip, d ∈ store) ∧
    (store = [] → getHistoricalData store limit skip = []) ∧
    (dataHistoryEndpoint store none none).1 = getHistoricalData store 100 0 ∧
    (dataHistoryEndpoint store none none).2 = store ∧
    (∀ q, queryNum q 100 ≠ 0) ∧
    getHistoricalData store 0 skip = (sortByTsDesc SensorDoc.ts store).drop skip.toNat ∧
    getHistoricalData demoStore 2 0 = [demoDoc 5, demoDoc 4] := by
  have hne0 : limit ≠ 0 := by omega
  have hna : limit.natAbs = limit.toNat := by omega
  have hdef : getHistoricalData store limit skip =
      ((sortByTsDesc SensorDoc.ts store).drop skip.toNat).take limit.toNat := by
    unfold getHistoricalData
    rw [if_neg hne0, hna]
  have hsub : List.Sublist (getHistoricalData store limit skip)
      (sortByTsDesc SensorDoc.ts store) := by
    rw [hdef]
    exact List.Sublist.trans (List.take_sublist _ _) (List.drop_sublist _ _)
  refine ⟨⟨sortByTsDesc SensorDoc.ts store, sortByTsDesc_perm _ _, sortByTsDesc_sorted _ _, hdef⟩,
      ?_, ?_, ?_, ?_, rfl, rfl, ?_, ?_, by decide⟩
  · rw [hdef]
    exact List.length_take_le _ _
  · exact (sortByTsDesc_sorted SensorDoc.ts store).sublist hsub
  · intro d hd
    exact (sortByTsDesc_perm SensorDoc.ts store).subset (hsub.subset hd)
  · intro h
    subst h
    simp [getHistoricalData, sortByTsDesc]
  · intro q
    cases q with
    | none => decide
    | some t =>
      show queryNum (some t) 100 ≠ 0
      unfold queryNum
      cases h : jsParseIntI t with
      | none => simp [h]
      | some n =>
        simp only [h]
        by_cases hn : n = 0
        · simp [hn]
        · rw [if_neg hn]
          exact hn
  · unfold getHistoricalData
    rw [if_pos rfl]

/-- C8 witness: the contract applied at the demonstration store with
`limit = 2, skip = 0`. -/
theorem history_query_contract_witness :
    (0 : Int) < 2 ∧ (0 : Int) ≤ 0 ∧
    ((∃ sorted : List SensorDoc, sorted.Perm demoStore ∧ sorted.Pairwise (fun a b => b.ts ≤ a.ts) ∧
        getHistoricalData demoStore 2 0 = (sorted.drop (0 : Int).toNat).take (2 : Int).toNat) ∧
     (getHistoricalData demoStore 2 0).length ≤ (2 : Int).toNat ∧
     (getHistoricalData demoStore 2 0).Pairwise (fun a b => b.ts ≤ a.ts) ∧
     (∀ d ∈ getHistoricalData demoStore 2 0, d ∈ demoStore) ∧
     (demoStore = [] → getHistoricalData demoStore 2 0 = []) ∧
     (dataHistoryEndpoint demoStore none none).1 = getHistoricalData demoStore 100 0 ∧
     (dataHistoryEndpoint demoStore none none).2 = demoStore ∧
     (∀ q, queryNum q 100 ≠ 0) ∧
     getHistoricalData demoStore 0 0 = (sortByTsDesc SensorDoc.ts demoStore).drop (0 : Int).toNat ∧
     getHistoricalData demoStore 2 0 = [demoDoc 5, demoDoc 4]) :=
  ⟨by decide, by decide, history_query_contract demoStore 2 0 (by decide) (by decide)⟩

/-- C10: for `GET /data/history` and `GET /logs`, a `limit` of `"0"`, a
non-numeric `limit`, or a missing `limit` is coerced to the default 100 (and a
`"0"` or non-numeric `skip` to 0), so a request with `limit=0` behaves exactly
like one with no limit and returns up to 100 records rather than an empty
sequence. -/
theorem query_limit_zero_coerced (snz : Str) (hz : jsParseIntI snz = none)
    (store : List SensorDoc) (lstore : List LogDoc) (skipQ : Option Str)
    (typeQ : Option LogType) (startQ endQ : Option Nat) :
    queryNum (some "0".data) 100 = 100 ∧
    queryNum (some snz) 100 = 100 ∧
    queryNum none 100 = 100 ∧
    queryNum (some "0".data) 0 = 0 ∧
    queryNum (some snz) 0 = 0 ∧
    (dataHistoryEndpoint store (some "0".data) skipQ).1 =
      (dataHistoryEndpoint store none skipQ).1 ∧
    (dataHistoryEndpoint store (some "0".data) skipQ).1.length ≤ 100 ∧
    (logsEndpoint lstore typeQ (some "0".data) skipQ startQ endQ).1 =
      (logsEndpoint lstore typeQ none skipQ startQ endQ).1 := by
  have e1 : queryNum (some "0".data) 100 = queryNum none 100 := by decide
  refine ⟨by decide, ?_, rfl, by decide, ?_, ?_, ?_, ?_⟩
  · simp [queryNum, hz]
  · simp [queryNum, hz]
  · simp only [dataHistoryEndpoint, e1]
  · show (getHistoricalData store (queryNum (some "0".data) 100) (queryNum skipQ 0)).length ≤ 100
    rw [e1]
    unfold getHistoricalData
    rw [if_neg (by decide : ¬queryNum none 100 = 0)]
    exact le_trans (List.length_take_le _ _) (by decide)
  · simp only [logsEndpoint, e1]

/-- C10 witness: the coercion statement applied at the non-numeric limit
string `"abc"`. -/
theorem query_limit_zero_coerced_witness :
    jsParseIntI "abc".data = none ∧
    (queryNum (some "0".data) 100 = 100 ∧
     queryNum (some "abc".data) 100 = 100 ∧
     queryNum none 100 = 100 ∧
     queryNum (some "0".data) 0 = 0 ∧
     queryNum (some "abc".data) 0 = 0 ∧
     (dataHistoryEndpoint demoStore (some "0".data) none).1 =
       (dataHistoryEndpoint demoStore none none).1 ∧
     (dataHistoryEndpoint demoStore (some "0".data) none).1.length ≤ 100 ∧
     (logsEndpoint [] none (some "0".data) none none none).1 =
       (logsEndpoint [] none none none none none).1) :=
  ⟨by decide, query_limit_zero_coerced "abc".data (by decide) demoStore [] none none none none⟩

/-! ## Well-formed key groups and permutation invariance (C5)

A well-formed line with all six keys is a comma-join of six key groups: a
`Key:Value` token optionally followed by a bare status token.  The lemmas
below characterize the parse of any such line by the groups it contains,
independently of their order. -/

theorem hasChar_iff_mem (s : Str) (c : Char) : hasChar s c = true ↔ c ∈ s := by
  induction s with
  | nil => simp [hasChar]
  | cons a rest ih =>
    by_cases h : a = c
    · subst h; simp [hasChar]
    · simp [hasChar, h, ih, Ne.symm h]

theorem hasChar_append (a b : Str) (c : Char) :
    hasChar (a ++ b) c = (hasChar a c || hasChar b c) := by
  induction a with
  | nil => simp [hasChar]
  | cons x rest ih =>
    by_cases h : x = c <;> simp [hasChar, h, ih]

theorem mem_trimLeft (s : Str) (c : Char) (h : c ∈ trimLeft s) : c ∈ s := by
  induction s with
  | nil => simpa [trimLeft] using h
  | cons a rest ih =>
    by_cases ha : a.isWhitespace
    · simp only [trimLeft, ha, if_true] at h
      exact List.mem_cons_of_mem a (ih h)
    · simpa [trimLeft, ha] using h

theorem mem_jsTrim (s : Str) (c : Char) (h : c ∈ jsTrim s) : c ∈ s := by
  unfold jsTrim at h
  have h1 := mem_trimLeft _ _ h
  rw [List.mem_reverse] at h1
  have h2 := mem_trimLeft _ _ h1
  rwa [List.mem_reverse] at h2

theorem hasChar_jsTrim_false (s : Str) (c : Char) (h : hasChar s c = false) :
    hasChar (jsTrim s) c = false := by
  by_contra hc
  have : hasChar (jsTrim s) c = true := by
    cases hcc : hasChar (jsTrim s) c
    · exact absurd hcc hc
    · rfl
  exact absurd ((hasChar_iff_mem s c).mpr (mem_jsTrim s c ((hasChar_iff_mem _ c).mp this)))
    (by simp [h])

theorem splitChar_of_not_has (sep : Char) (s : Str) (h : hasChar s sep = false) :
    splitChar sep s = [s] := by
  induction s with
  | nil => rfl
  | cons c rest ih =>
    simp only [hasChar] at h
    by_cases hc : c = sep
    · simp [hc] at h
    · simp only [hc, if_false] at h
      simp [splitChar, ih h, hc]

theorem splitChar_ne_nil (sep : Char) (s : Str) : splitChar sep s ≠ [] := by
  induction s with
  | nil => simp [splitChar]
  | cons c rest ih =>
    unfold splitChar
    cases hs : splitChar sep rest with
    | nil => simp
    | cons p ps => split_ifs <;> simp

theorem splitChar_append_sep (sep : Char) (t u : Str) (h : hasChar t sep = false) :
    splitChar sep (t ++ sep :: u) = t :: splitChar sep u := by
  induction t with
  | nil =>
    simp only [List.nil_append, splitChar]
    cases hs : splitChar sep u with
    | nil => exact absurd hs (splitChar_ne_nil sep u)
    | cons p ps => simp
  | cons c rest ih =>
    simp only [hasChar] at h
    by_cases hc : c = sep
    · simp [hc] at h
    · simp only [hc, if_false] at h
      have h2 := ih h
      show (match splitChar sep (rest ++ sep :: u) with
        | [] => [[]]
        | p :: ps => if c = sep then [] :: p :: ps else (c :: p) :: ps) =
        (c :: rest) :: splitChar sep u
      rw [h2]
      simp [hc]

/-- One key group of a well-formed line: a `Key:Value` token, optionally
followed by a bare status token. -/
structure KeyGroup where
  key : Str
  val : Str
  status : Option Str
deriving DecidableEq, Repr

/-- The comma-separated tokens a group contributes to the line. -/
def KeyGroup.tokens (g : KeyGroup) : List Str :=
  (g.key ++ ':' :: g.val) ::
    (match g.status with
     | some st => [st]
     | none => [])

/-- The token sequence of a list of groups. -/
def renderTokens (gs : List KeyGroup) : List Str := (gs.map KeyGroup.tokens).flatten

/-- Join tokens with commas (inverse of the comma split). -/
def joinComma : List Str → Str
  | [] => []
  | [t] => t
  | t :: u :: rest => t ++ ',' :: joinComma (u :: rest)

/-- The raw line of a list of groups. -/
def renderLine (gs : List KeyGroup) : Str := joinComma (renderTokens gs)

/-- Well-formedness of a group: the key and value contain no `":"` or `","`,
the `Key:Value` token carries no surrounding whitespace, and a status token
contains no `":"` or `","`. -/
def KeyGroup.wf (g : KeyGroup) : Bool :=
  !(hasChar g.key ':') && !(hasChar g.key ',') &&
  !(hasChar g.val ':') && !(hasChar g.val ',') &&
  (jsTrim (g.key ++ ':' :: g.val) == g.key ++ ':' :: g.val) &&
  (match g.status with
   | some st => !(hasChar st ':') && !(hasChar st ',')
   | none => true)

/-- The last group with the given key (later groups win, as in the parser). -/
def lastGroup (k : Str) : List KeyGroup → Option KeyGroup
  | [] => none
  | g :: rest =>
    match lastGroup k rest with
    | some e => some e
    | none => if g.key = k then some g else none

theorem splitChar_joinComma (ts : List Str) (hne : ts ≠ [])
    (hall : ∀ t ∈ ts, hasChar t ',' = false) :
    splitChar ',' (joinComma ts) = ts := by
  induction ts with
  | nil => exact absurd rfl hne
  | cons t rest ih =>
    cases rest with
    | nil =>
      simpa [joinComma] using splitChar_of_not_has ',' t (hall t (by simp))
    | cons u rest2 =>
      have h1 : hasChar t ',' = false := hall t (by simp)
      have h2 := ih (by simp) (fun x hx => hall x (List.mem_cons_of_mem t hx))
      show splitChar ',' (t ++ ',' :: joinComma (u :: rest2)) = t :: u :: rest2
      rw [splitChar_append_sep ',' t _ h1, h2]

theorem wf_key_colon (g : KeyGroup) (h : g.wf = true) : hasChar g.key ':' = false := by
  unfold KeyGroup.wf at h
  simp only [Bool.and_eq_true, Bool.not_eq_true'] at h
  exact h.1.1.1.1.1

theorem wf_val_colon (g : KeyGroup) (h : g.wf = true) : hasChar g.val ':' = false := by
  unfold KeyGroup.wf at h
  simp only [Bool.and_eq_true, Bool.not_eq_true'] at h
  exact h.1.1.1.2

theorem wf_trim_tok (g : KeyGroup) (h : g.wf = true) :
    jsTrim (g.key ++ ':' :: g.val) = g.key ++ ':' :: g.val := by
  unfold KeyGroup.wf at h
  simp only [Bool.and_eq_true, beq_iff_eq] at h
  exact h.1.2

theorem wf_status_colon (g : KeyGroup) (st : Str) (h : g.wf = true) (hst : g.status = some st) :
    hasChar st ':' = false := by
  unfold KeyGroup.wf at h
  rw [hst] at h
  simp only [Bool.and_eq_true, Bool.not_eq_true'] at h
  exact h.2.1

theorem wf_status_comma (g : KeyGroup) (st : Str) (h : g.wf = true) (hst : g.status = some st) :
    hasChar st ',' = false := by
  unfold KeyGroup.wf at h
  rw [hst] at h
  simp only [Bool.and_eq_true, Bool.not_eq_true'] at h
  exact h.2.2

/-- The `Key:Value` token of a group contains a colon. -/
theorem keyTok_hasColon (g : KeyGroup) : hasChar (g.key ++ ':' :: g.val) ':' = true := by
  rw [hasChar_append]
  simp [hasChar]

/-- Splitting the `Key:Value` token of a well-formed group. -/
theorem keyTok_split (g : KeyGroup) (h : g.wf = true) :
    splitChar ':' (g.key ++ ':' :: g.val) = [g.key, g.val] := by
  rw [splitChar_append_sep ':' _ _ (wf_key_colon g h),
    splitChar_of_not_has ':' _ (wf_val_colon g h)]

theorem keyTok_tokKey (g : KeyGroup) (h : g.wf = true) :
    tokKey? (g.key ++ ':' :: g.val) = some g.key := by
  unfold tokKey?
  rw [wf_trim_tok g h]
  simp [keyTok_hasColon, keyTok_split g h]

theorem keyTok_tokVal (g : KeyGroup) (h : g.wf = true) :
    tokVal (g.key ++ ':' :: g.val) = g.val := by
  unfold tokVal
  rw [wf_trim_tok g h, keyTok_split g h]
  rfl

/-- A status token of a well-formed group is not a key token for any key. -/
theorem statusTok_not_key (g : KeyGroup) (st : Str) (h : g.wf = true) (hst : g.status = some st)
    (k : Str) : ¬ isKeyTok k st := by
  unfold isKeyTok tokKey?
  simp only [hasChar_jsTrim_false st ':' (wf_status_colon g st h hst)]
  simp

theorem lastVal_append (k : Str) (xs ys : List Str) :
    lastVal k (xs ++ ys) =
      match lastVal k ys with
      | some v => some v
      | none => lastVal k xs := by
  induction xs with
  | nil =>
    cases h : lastVal k ys <;> simp [lastVal, h]
  | cons p xs ih =>
    simp only [List.cons_append, lastVal, ih]
    cases h : lastVal k ys <;> cases h2 : lastVal k xs <;> simp_all

/-- The value contribution of one well-formed group's tokens. -/
theorem lastVal_groupTokens (k : Str) (g : KeyGroup) (h : g.wf = true) :
    lastVal k g.tokens = if g.key = k then some g.val else none := by
  unfold KeyGroup.tokens
  cases hst : g.status with
  | none =>
    simp only [lastVal, valContrib, isKeyTok, keyTok_tokKey g h, keyTok_tokVal g h]
    by_cases hk : g.key = k
    · simp [hk]
    · simp [hk, fun hh => hk (Option.some.injEq _ _ ▸ hh)]
  | some st =>
    have hns := statusTok_not_key g st h hst k
    unfold isKeyTok at hns
    simp only [lastVal, valContrib, isKeyTok, keyTok_tokKey g h, keyTok_tokVal g h]
    rw [if_neg hns]
    by_cases hk : g.key = k
    · simp [hk]
    · simp [hk, fun hh => hk (Option.some.injEq _ _ ▸ hh)]

theorem lastVal_render (k : Str) (gs : List KeyGroup) (hwf : ∀ g ∈ gs, g.wf = true) :
    lastVal k (renderTokens gs) = (lastGroup k gs).map KeyGroup.val := by
  induction gs with
  | nil => simp [renderTokens, lastVal, lastGroup]
  | cons g rest ih =>
    have hg : g.wf = true := hwf g (by simp)
    have hrest : ∀ e ∈ rest, e.wf = true := fun e he => hwf e (List.mem_cons_of_mem g he)
    have hr : renderTokens (g :: rest) = g.tokens ++ renderTokens rest := by
      simp [renderTokens]
    rw [hr, lastVal_append, ih hrest]
    cases h : lastGroup k rest with
    | some e => simp [lastGroup, h]
    | none =>
      rw [lastVal_groupTokens k g hg]
      by_cases hk : g.key = k <;> simp [lastGroup, h, hk]

theorem lastStatusB_append (k : Str) (xs ys : List Str) (after : Option Str) :
    lastStatusB k (xs ++ ys) after =
      match lastStatusB k ys after with
      | some v => some v
      | none => lastStatusB k xs (match ys with | [] => after | t :: _ => some t) := by
  induction xs with
  | nil =>
    cases h : lastStatusB k ys after <;> simp [lastStatusB, h]
  | cons p xs ih =>
    simp only [List.cons_append, lastStatusB, ih]
    cases hys : ys with
    | nil =>
      simp only [List.append_nil]
      cases h2 : lastStatusB k xs after <;> cases xs <;> simp_all [lastStatusB]
    | cons y ys2 =>
      cases h : lastStatusB k (y :: ys2) after <;>
        cases h2 : lastStatusB k xs (some y) <;>
          cases xs <;> simp_all [lastStatusB]

/-- The status contribution of one well-formed group's tokens, when whatever
token follows the group is a key token (or nothing follows). -/
theorem lastStatusB_groupTokens (k : Str) (g : KeyGroup) (h : g.wf = true) (after : Option Str)
    (hafter : ∀ t, after = some t → hasChar t ':' = true) :
    lastStatusB k g.tokens after =
      if g.key = k then g.status.map jsTrim else none := by
  unfold KeyGroup.tokens
  cases hst : g.status with
  | none =>
    simp only [lastStatusB, statusContrib, isKeyTok, keyTok_tokKey g h]
    cases hA : after with
    | none => by_cases hk : g.key = k <;> simp [hk]
    | some t =>
      have := hafter t hA
      by_cases hk : g.key = k <;> simp [hk, this]
  | some st =>
    have hns := statusTok_not_key g st h hst k
    unfold isKeyTok at hns
    have hstc := wf_status_colon g st h hst
    simp only [lastStatusB, statusContrib, isKeyTok, keyTok_tokKey g h, hns, if_neg hns]
    by_cases hk : g.key = k <;> simp [hk, hstc]

/-- Every head token of a rendered group list is a key token (contains a
colon). -/
theorem renderTokens_head_colon (gs : List KeyGroup) (t : Str)
    (h : (renderTokens gs).head? = some t) : hasChar t ':' = true := by
  cases gs with
  | nil => simp [renderTokens] at h
  | cons g rest =>
    have : (renderTokens (g :: rest)).head? = some (g.key ++ ':' :: g.val) := by
      simp [renderTokens, KeyGroup.tokens]
    rw [this] at h
    cases h
    exact keyTok_hasColon g

/-- The status the parser ends up attaching for key `k` over a group list:
the last group with key `k` and a status wins, and a later group with key `k`
but no status does not erase an earlier attachment (the parser only ever
overwrites statuses). -/
def lastGroupStatus (k : Str) : List KeyGroup → Option Str
  | [] => none
  | g :: rest =>
    match lastGroupStatus k rest with
    | some v => some v
    | none => if g.key = k then g.status.map jsTrim else none

theorem lastStatus_render (k : Str) (gs : List KeyGroup) (hwf : ∀ g ∈ gs, g.wf = true) :
    lastStatusB k (renderTokens gs) none = lastGroupStatus k gs := by
  induction gs with
  | nil => simp [renderTokens, lastStatusB, lastGroupStatus]
  | cons g rest ih =>
    have hg : g.wf = true := hwf g (by simp)
    have hrest : ∀ e ∈ rest, e.wf = true := fun e he => hwf e (List.mem_cons_of_mem g he)
    have hr : renderTokens (g :: rest) = g.tokens ++ renderTokens rest := by
      simp [renderTokens]
    rw [hr, lastStatusB_append, ih hrest]
    have hafter : ∀ t, (match renderTokens rest with
        | [] => (none : Option Str)
        | t :: _ => some t) = some t → hasChar t ':' = true := by
      intro t ht
      cases hrt : renderTokens rest with
      | nil => rw [hrt] at ht; cases ht
      | cons a b =>
        rw [hrt] at ht
        cases ht
        exact renderTokens_head_colon rest t (by rw [hrt]; rfl)
    rw [lastStatusB_groupTokens k g hg _ hafter]
    cases h : lastGroupStatus k rest with
    | some e => simp [lastGroupStatus, h]
    | none => simp [lastGroupStatus, h]

/-- A found group is a member with the sought key. -/
theorem lastGroup_mem (k : Str) (gs : List KeyGroup) (g : KeyGroup)
    (h : lastGroup k gs = some g) : g ∈ gs ∧ g.key = k := by
  induction gs with
  | nil => simp [lastGroup] at h
  | cons e rest ih =>
    unfold lastGroup at h
    cases h2 : lastGroup k rest with
    | some f =>
      rw [h2] at h
      cases h
      rcases ih h2 with ⟨hm, hk⟩
      exact ⟨List.mem_cons_of_mem e hm, hk⟩
    | none =>
      rw [h2] at h
      by_cases hk : e.key = k
      · rw [if_pos hk] at h
        cases h
        exact ⟨by simp, hk⟩
      · rw [if_neg hk] at h
        cases h

theorem lastGroup_eq_none_iff (k : Str) (gs : List KeyGroup) :
    lastGroup k gs = none ↔ ∀ g ∈ gs, g.key ≠ k := by
  induction gs with
  | nil => simp [lastGroup]
  | cons e rest ih =>
    unfold lastGroup
    cases h2 : lastGroup k rest with
    | some f =>
      simp only [reduceCtorEq, false_iff]
      intro hall
      rcases lastGroup_mem k rest f h2 with ⟨hm, hk⟩
      exact hall f (List.mem_cons_of_mem e hm) hk
    | none =>
      by_cases hk : e.key = k
      · simp [hk]
      · simp only [if_neg hk]
        constructor
        · intro _ g hg
          rcases List.mem_cons.mp hg with rfl | hg2
          · exact hk
          · exact (ih.mp h2) g hg2
        · intro _
          trivial

/-- With unique keys, the group found is the unique member with that key. -/
theorem lastGroup_eq_some (k : Str) (gs : List KeyGroup) (g : KeyGroup)
    (hnd : (gs.map KeyGroup.key).Nodup) (hg : g ∈ gs) (hk : g.key = k) :
    lastGroup k gs = some g := by
  induction gs with
  | nil => simp at hg
  | cons e rest ih =>
    rw [List.map_cons] at hnd
    rcases List.nodup_cons.mp hnd with ⟨hek, hndr⟩
    unfold lastGroup
    cases h2 : lastGroup k rest with
    | some f =>
      rcases lastGroup_mem k rest f h2 with ⟨hfm, hfk⟩
      rcases List.mem_cons.mp hg with rfl | hg2
      · exact absurd (hk ▸ hfk ▸ List.mem_map_of_mem KeyGroup.key hfm) hek
      · have : f = g := List.inj_on_of_nodup_map hndr hfm hg2 (hfk.trans hk.symm)
        rw [this]
    | none =>
      rcases List.mem_cons.mp hg with rfl | hg2
      · simp [hk]
      · exact absurd hk ((lastGroup_eq_none_iff k rest).mp h2 g hg2)

/-- `lastGroup` is permutation-invariant when keys are unique. -/
theorem lastGroup_perm (k : Str) (gs₁ gs₂ : List KeyGroup) (hp : gs₁.Perm gs₂)
    (hnd : (gs₁.map KeyGroup.key).Nodup) : lastGroup k gs₁ = lastGroup k gs₂ := by
  have hnd₂ : (gs₂.map KeyGroup.key).Nodup := ((hp.map KeyGroup.key).nodup_iff).mp hnd
  cases h : lastGroup k gs₁ with
  | some g =>
    rcases lastGroup_mem k gs₁ g h with ⟨hm, hk⟩
    exact (lastGroup_eq_some k gs₂ g hnd₂ (hp.mem_iff.mp hm) hk).symm
  | none =>
    have hall := (lastGroup_eq_none_iff k gs₁).mp h
    exact ((lastGroup_eq_none_iff k gs₂).mpr
      (fun g hg => hall g (hp.mem_iff.mpr hg))).symm

/-- When keys are unique, the retained status for key `k` is just the status
of the unique group with that key. -/
theorem lastGroupStatus_of_nodup (k : Str) (gs : List KeyGroup)
    (hnd : (gs.map KeyGroup.key).Nodup) :
    lastGroupStatus k gs = (lastGroup k gs).bind (fun g => g.status.map jsTrim) := by
  induction gs with
  | nil => simp [lastGroupStatus, lastGroup]
  | cons g rest ih =>
    rw [List.map_cons] at hnd
    rcases List.nodup_cons.mp hnd with ⟨hgk, hndr⟩
    have ihr := ih hndr
    cases h : lastGroup k rest with
    | some e =>
      have hek : e ∈ rest ∧ e.key = k := lastGroup_mem k rest e h
      have hgne : g.key ≠ k := by
        intro hc
        exact hgk (hc ▸ hek.2 ▸ List.mem_map_of_mem KeyGroup.key hek.1)
      cases he : e.status with
      | none => simp [lastGroupStatus, lastGroup, ihr, h, he, hgne]
      | some st => simp [lastGroupStatus, lastGroup, ihr, h, he]
    | none =>
      by_cases hk : g.key = k <;> simp [lastGroupStatus, lastGroup, ihr, h, hk]

theorem wf_key_comma (g : KeyGroup) (h : g.wf = true) : hasChar g.key ',' = false := by
  unfold KeyGroup.wf at h
  simp only [Bool.and_eq_true, Bool.not_eq_true'] at h
  exact h.1.1.1.1.2

theorem wf_val_comma (g : KeyGroup) (h : g.wf = true) : hasChar g.val ',' = false := by
  unfold KeyGroup.wf at h
  simp only [Bool.and_eq_true, Bool.not_eq_true'] at h
  exact h.1.1.2

theorem renderTokens_ne_nil (gs : List KeyGroup) (h : gs ≠ []) : renderTokens gs ≠ [] := by
  cases gs with
  | nil => exact absurd rfl h
  | cons g rest => simp [renderTokens, KeyGroup.tokens]

theorem renderTokens_no_comma (gs : List KeyGroup) (hwf : ∀ g ∈ gs, g.wf = true) :
    ∀ t ∈ renderTokens gs, hasChar t ',' = false := by
  induction gs with
  | nil => simp [renderTokens]
  | cons g rest ih =>
    have hg : g.wf = true := hwf g (by simp)
    have hrest : ∀ e ∈ rest, e.wf = true := fun e he => hwf e (List.mem_cons_of_mem g he)
    intro t ht
    have hr : renderTokens (g :: rest) = g.tokens ++ renderTokens rest := by
      simp [renderTokens]
    rw [hr] at ht
    rcases List.mem_append.mp ht with h1 | h2
    · unfold KeyGroup.tokens at h1
      have hcolon : (':' : Char) ≠ ',' := by decide
      cases hst : g.status with
      | none =>
        rw [hst] at h1
        simp only [List.mem_singleton] at h1
        subst h1
        rw [hasChar_append]
        simp [hasChar, wf_key_comma g hg, wf_val_comma g hg, hcolon]
      | some st =>
        rw [hst] at h1
        rcases List.mem_cons.mp h1 with rfl | h1b
        · rw [hasChar_append]
          simp [hasChar, wf_key_comma g hg, wf_val_comma g hg, hcolon]
        · simp only [List.mem_singleton] at h1b
          subst h1b
          exact wf_status_comma g t hg hst
    · exact ih hrest t h2

/-- The sensor fields a well-formed group list prescribes: each value field is
the numeric parse of the unique group with its key, each status field the
retained status. -/
def groupFields (gs : List KeyGroup) : SensorFields :=
  { moisture := (lastGroup kMoisture gs).map (fun g => jsParseInt g.val),
    moistureStatus := lastGroupStatus kMoisture gs,
    light := (lastGroup kLight gs).map (fun g => jsParseInt g.val),
    lightStatus := lastGroupStatus kLight gs,
    water := (lastGroup kWater gs).map (fun g => jsParseInt g.val),
    waterStatus := lastGroupStatus kWater gs,
    temperature := (lastGroup kTemp gs).map (fun g => jsParseFloat g.val),
    humidity := (lastGroup kHumid gs).map (fun g => jsParseFloat g.val),
    servo := (lastGroup kServo gs).map (fun g => jsParseInt g.val) }

/-- Parsing the rendered line of well-formed groups yields exactly the fields
the groups prescribe, whatever their order. -/
theorem pureParse_render (gs : List KeyGroup) (hne : gs ≠ [])
    (hwf : ∀ g ∈ gs, g.wf = true) :
    pureParse (renderLine gs) = groupFields gs := by
  unfold pureParse renderLine
  rw [splitChar_joinComma _ (renderTokens_ne_nil gs hne) (renderTokens_no_comma gs hwf)]
  unfold ServerState.sensors groupFields
  simp only [SensorFields.mk.injEq]
  refine ⟨?_, ?_, ?_, ?_, ?_, ?_, ?_, ?_, ?_⟩
  · rw [loop_moisture, lastVal_render _ _ hwf]
    cases lastGroup kMoisture gs <;> simp [blankState, initialState]
  · rw [loop_moistureStatus]
    unfold lastStatus
    rw [lastStatus_render _ _ hwf]
    cases lastGroupStatus kMoisture gs <;> simp [blankState, initialState]
  · rw [loop_light, lastVal_render _ _ hwf]
    cases lastGroup kLight gs <;> simp [blankState, initialState]
  · rw [loop_lightStatus]
    unfold lastStatus
    rw [lastStatus_render _ _ hwf]
    cases lastGroupStatus kLight gs <;> simp [blankState, initialState]
  · rw [loop_water, lastVal_render _ _ hwf]
    cases lastGroup kWater gs <;> simp [blankState, initialState]
  · rw [loop_waterStatus]
    unfold lastStatus
    rw [lastStatus_render _ _ hwf]
    cases lastGroupStatus kWater gs <;> simp [blankState, initialState]
  · rw [loop_temperature, lastVal_render _ _ hwf]
    cases lastGroup kTemp gs <;> simp [blankState, initialState]
  · rw [loop_humidity, lastVal_render _ _ hwf]
    cases lastGroup kHumid gs <;> simp [blankState, initialState]
  · rw [loop_servo, lastVal_render _ _ hwf]
    cases lastGroup kServo gs <;> simp [blankState, initialState]

/-- C5: for well-formed lines carrying all six recognized keys (each with its
value, and with a status attached to `Moisture`/`Light`/`Water`), parsing the
line assembled from any permutation of its key groups recovers the same field
values as any other permutation: parsing is order-independent, status
attachment depending only on the status token's position immediately after
its own key. -/
theorem parse_order_independent (gs₁ gs₂ : List KeyGroup) (hperm : gs₁.Perm gs₂)
    (hwf : ∀ g ∈ gs₁, g.wf = true)
    (hkeys : (gs₁.map KeyGroup.key).Perm recognizedKeys)
    (hstatus : ∀ g ∈ gs₁,
      (g.status.isSome ↔ (g.key = kMoisture ∨ g.key = kLight ∨ g.key = kWater))) :
    pureParse (renderLine gs₁) = pureParse (renderLine gs₂) := by
  have hnd₁ : (gs₁.map KeyGroup.key).Nodup := hkeys.nodup_iff.mpr (by decide)
  have hnd₂ : (gs₂.map KeyGroup.key).Nodup := ((hperm.map KeyGroup.key).nodup_iff).mp hnd₁
  have hwf₂ : ∀ g ∈ gs₂, g.wf = true := fun g hg => hwf g (hperm.mem_iff.mpr hg)
  have hne₁ : gs₁ ≠ [] := by
    intro h
    subst h
    have := hkeys.length_eq
    simp [recognizedKeys] at this
  have hne₂ : gs₂ ≠ [] := by
    intro h
    apply hne₁
    subst h
    exact List.length_eq_zero.mp hperm.length_eq
  have he : ∀ k, lastGroup k gs₁ = lastGroup k gs₂ := fun k =>
    lastGroup_perm k _ _ hperm hnd₁
  have hs : ∀ k, lastGroupStatus k gs₁ = lastGroupStatus k gs₂ := fun k => by
    rw [lastGroupStatus_of_nodup k gs₁ hnd₁, lastGroupStatus_of_nodup k gs₂ hnd₂, he k]
  rw [pureParse_render gs₁ hne₁ hwf, pureParse_render gs₂ hne₂ hwf₂]
  unfold groupFields
  simp only [SensorFields.mk.injEq]
  exact ⟨by rw [he kMoisture], by rw [hs kMoisture], by rw [he kLight], by rw [hs kLight],
    by rw [he kWater], by rw [hs kWater], by rw [he kTemp], by rw [he kHumid],
    by rw [he kServo]⟩

/-- A demonstration well-formed line's groups, in the device's order. -/
def demoGroupsA : List KeyGroup :=
  [⟨kMoisture, "512".data, some "MOIST".data⟩,
   ⟨kLight, "700".data, some "BRIGHT".data⟩,
   ⟨kWater, "45".data, some "MEDIUM".data⟩,
   ⟨kTemp, "24.5".data, none⟩,
   ⟨kHumid, "55".data, none⟩,
   ⟨kServo, "90".data, none⟩]

/-- The same groups in a different order. -/
def demoGroupsB : List KeyGroup :=
  [⟨kServo, "90".data, none⟩,
   ⟨kTemp, "24.5".data, none⟩,
   ⟨kMoisture, "512".data, some "MOIST".data⟩,
   ⟨kWater, "45".data, some "MEDIUM".data⟩,
   ⟨kHumid, "55".data, none⟩,
   ⟨kLight, "700".data, some "BRIGHT".data⟩]

/-- C5 witness: order independence applied to two concrete permutations of a
full six-key line. -/
theorem parse_order_independent_witness :
    demoGroupsA.Perm demoGroupsB ∧
    (∀ g ∈ demoGroupsA, g.wf = true) ∧
    (demoGroupsA.map KeyGroup.key).Perm recognizedKeys ∧
    (∀ g ∈ demoGroupsA,
      (g.status.isSome ↔ (g.key = kMoisture ∨ g.key = kLight ∨ g.key = kWater))) ∧
    pureParse (renderLine demoGroupsA) = pureParse (renderLine demoGroupsB) :=
  ⟨by decide, by decide, by decide, by decide,
   parse_order_independent demoGroupsA demoGroupsB (by decide) (by decide) (by decide)
     (by decide)⟩
